import Mathlib

/-!
Shallow embedding of the parallel consensus orchestrator
(`tools/consensus.py`, class `ConsensusTool`) of the zen-mcp-server
repository, together with theorems settling the frozen claims about it.

Modelling conventions:
* Python dicts with a fixed key set become structures; dicts with open key
  sets become association lists.
* The provider interaction inside a per-model consultation is abstracted as
  a `ProviderCall`: either `generate_content` returns text and usage, or
  some step of the consultation body raises (auth errors, rate limits,
  connection errors, token-limit validation errors all take this branch,
  since `_consult_model` wraps its whole body in one `try/except`).
* The `asyncio.wait(tasks, timeout=...)` outcome is represented by the set
  of completed tasks: a list of `(index, outcome)` pairs in an arbitrary
  completion order.  A task index absent from that list is still pending at
  the phase deadline (and is cancelled by the code).
* Machine floats (elapsed seconds) are modelled as rationals; token counts
  as naturals.
-/

namespace ZenConsensus

/-- Usage and timing metadata attached to one successful consultation,
mirroring the `metadata` dict built by `_consult_model` /
`_consult_model_with_feedback`. -/
structure PhaseMeta where
  provider : String
  model_name : String
  input_tokens : Nat
  output_tokens : Nat
  response_time : ℚ
deriving Repr, DecidableEq

/-- Result dict returned by `ConsensusTool._consult_model`: either a
`status == "success"` dict carrying the response text and metadata, or a
`status == "error"` dict carrying `str(e)`. -/
inductive ConsResult where
  | success (model phase response : String) (meta : PhaseMeta)
  | failure (model phase errMsg : String)
deriving Repr, DecidableEq

namespace ConsResult

/-- Mirrors `result.get("status")` — always present on both dict shapes. -/
def statusOf : ConsResult → String
  | .success _ _ _ _ => "success"
  | .failure _ _ _ => "error"

/-- Mirrors `result.get("model")` — always present on both dict shapes. -/
def modelOf : ConsResult → String
  | .success m _ _ _ => m
  | .failure m _ _ => m

/-- Mirrors `result["response"]` with `""` standing in for the key being absent
(the code only reads it from `status == "success"` dicts). -/
def responseD : ConsResult → String
  | .success _ _ r _ => r
  | .failure _ _ _ => ""

/-- Mirrors `result["metadata"]` with a zero record standing in for the key being
absent (the code only reads it from `status == "success"` dicts). -/
def metaD : ConsResult → PhaseMeta
  | .success _ _ _ m => m
  | .failure _ _ _ => ⟨"", "", 0, 0, 0⟩

end ConsResult

/-- One entry of the caller-supplied `models` roster: a dict whose only
key the orchestrator reads is `"model"` (`mc.get("model")`); `none`
models a dict lacking that key. -/
structure ModelCfg where
  model : Option String
deriving Repr, DecidableEq

/-- Mirrors `config.get("model", "unknown")`. -/
def ModelCfg.nameOrUnknown (c : ModelCfg) : String := c.model.getD "unknown"

/-- Outcome of the provider interaction inside one consultation body:
either `provider.generate_content` returns (provider type, text, usage,
elapsed wall-clock time), or some step of the body raises with message
`str(e)`. -/
inductive ProviderCall where
  | returns (providerName text : String) (inTok outTok : Nat) (elapsed : ℚ)
  | raises (msg : String)
deriving Repr, DecidableEq

/-- Mirrors `ConsensusTool._consult_model` (initial phase body): builds a
`status == "success"` dict from a provider response, and converts every
exception raised in the body — including `model_config["model"]` raising
`KeyError` when the roster dict lacks the key — into a
`status == "error"` dict.  It never lets an exception escape. -/
def consultModel (cfg : ModelCfg) (phase : String) (call : ProviderCall) : ConsResult :=
  match cfg.model with
  | none => .failure cfg.nameOrUnknown phase "KeyError: model"
  | some name =>
    match call with
    | .returns p t i o e => .success name phase t ⟨p, name, i, o, e⟩
    | .raises m => .failure name phase m

/-- Exceptions observed by the gather loop in `execute`. -/
inductive PyExc where
  | timeoutErr (msg : String)
  | otherErr (msg : String)
deriving Repr, DecidableEq

/-- Mirrors `str(e)` on an exception object. -/
def PyExc.strExc : PyExc → String
  | .timeoutErr m => m
  | .otherErr m => m

/-- Message of the `TimeoutError` the gather loop fabricates for a task
still pending at the phase deadline (`execute`, phase 1).  The phase
timeout is carried as its Python string rendering. -/
def timeoutMessage (phaseTimeout modelName : String) : String :=
  "Phase timeout exceeded (" ++ phaseTimeout ++ "s) for model " ++ modelName

/-- What `task.result()` yields for a task in the `done` set: the value
returned by the coroutine, or the exception it raised. -/
inductive DoneOutcome where
  | value (r : ConsResult)
  | raised (e : PyExc)
deriving Repr, DecidableEq

/-- One entry of the `ordered_responses` list: an exception object or a
result dict. -/
inductive RespEntry where
  | exc (e : PyExc)
  | res (r : ConsResult)
deriving Repr, DecidableEq

/-- The `done` collection is a set of completed tasks; the gather loop only tests
membership by task identity, which here is the index of the task in
`initial_tasks`.  `findDone done i` is that membership-plus-result test. -/
def findDone (done : List (Nat × DoneOutcome)) (i : Nat) : Option DoneOutcome :=
  (done.find? (fun p => p.1 = i)).map (·.2)

/-- The `ordered_responses` construction in `execute` (phase 1): iterate
tasks in input order; a completed task contributes its value or its
exception, a pending task contributes a fabricated `TimeoutError` naming
`models_to_consult[i].get("model", "unknown")`. -/
def orderedResponses (models : List ModelCfg) (done : List (Nat × DoneOutcome))
    (phaseTimeout : String) : List RespEntry :=
  (List.range models.length).map fun i =>
    match findDone done i with
    | some (.value r) => .res r
    | some (.raised e) => .exc e
    | none =>
      .exc (.timeoutErr (timeoutMessage phaseTimeout
        ((models[i]?.getD ⟨none⟩).nameOrUnknown)))

/-- One entry of the `failed_models` list. -/
structure FailureEntry where
  model : String
  error : String
  phase : String
deriving Repr, DecidableEq

/-- The partition loop in `execute` (phase 1): an entry that
`isinstance(response, Exception)` goes to `failed_models` (with the model
name re-read from `models_to_consult[i]`), every other entry — including
`status == "error"` dicts returned by `_consult_model` — is appended to
`successful_initial`. -/
def partStep (acc : List FailureEntry × List ConsResult) :
    ModelCfg × RespEntry → List FailureEntry × List ConsResult
  | (m, .exc e) => (acc.1 ++ [⟨m.nameOrUnknown, e.strExc, "initial"⟩], acc.2)
  | (_, .res r) => (acc.1, acc.2 ++ [r])

/-- See `partStep` for the per-entry step. -/
def partitionResponses (models : List ModelCfg) (entries : List RespEntry) :
    List FailureEntry × List ConsResult :=
  (models.zip entries).foldl partStep ([], [])

/-- Phase 1 of `execute` after the tasks have run: build the ordered
responses from the completion set, then partition them into
`failed_models` and `successful_initial`. -/
def runInitialPhase (models : List ModelCfg) (done : List (Nat × DoneOutcome))
    (phaseTimeout : String) : List FailureEntry × List ConsResult :=
  partitionResponses models (orderedResponses models done phaseTimeout)

/-- Length of `successful_initial` filtered to success status — the number
of models that actually succeeded in the initial phase. -/
def countSuccess (rs : List ConsResult) : Nat :=
  (rs.filter (fun r => r.statusOf = "success")).length

/-- The peer list built for entry `i` of `successful_initial`:
`[r for j, r in enumerate(successful_initial) if j != i and r.get("status") == "success"]`. -/
def othersOf (succ : List ConsResult) (i : Nat) : List ConsResult :=
  (succ.enum.filter (fun p => p.1 ≠ i ∧ p.2.statusOf = "success")).map (·.2)

/-- First roster entry whose `"model"` key equals `name`
(`mc.get("model") == response.get("model")`). -/
def findModelCfg (models : List ModelCfg) (name : String) : Option ModelCfg :=
  models.find? (fun mc => mc.model = some name)

/-- Arguments of one refinement task created in phase 2 of `execute`:
the roster config of the model, its own initial response, and the
successful peer responses. -/
structure RefTaskSpec where
  cfg : ModelCfg
  response : ConsResult
  others : List ConsResult
deriving Repr, DecidableEq

/-- The refinement-task creation loop in `execute`: runs only when
cross-feedback is enabled and `len(successful_initial) > 1`; creates a
task for entry `i` only when its status is `"success"`, its roster config
is found (a matched config necessarily has the `"model"` key, hence is a
non-empty, truthy dict), and it has at least one successful peer. -/
def refinementTaskSpecs (enable : Bool) (models : List ModelCfg)
    (succ : List ConsResult) : List RefTaskSpec :=
  if enable ∧ succ.length > 1 then
    succ.enum.filterMap fun p =>
      if p.2.statusOf = "success" then
        let others := othersOf succ p.1
        match findModelCfg models p.2.modelOf with
        | some mc => if others ≠ [] then some ⟨mc, p.2, others⟩ else none
        | none => none
      else none
  else []

/-- Result dict returned by `ConsensusTool._consult_model_with_feedback`:
a `status == "success"` dict carrying `initial_response` and
`refined_response`, or a `status == "error"` dict carrying `str(e)`. -/
inductive RefResult where
  | success (model phase : String) (initialResponse : Option String)
      (refinedResponse : String) (meta : PhaseMeta)
  | failure (model phase errMsg : String)
deriving Repr, DecidableEq

namespace RefResult

/-- Mirrors `r.get("status")`. -/
def statusOf : RefResult → String
  | .success _ _ _ _ _ => "success"
  | .failure _ _ _ => "error"

/-- Mirrors `r["model"]`. -/
def modelOf : RefResult → String
  | .success m _ _ _ _ => m
  | .failure m _ _ => m

/-- Mirrors `r["refined_response"]` with `""` standing in for the key being
absent (the code only reads it from `status == "success"` dicts). -/
def refinedD : RefResult → String
  | .success _ _ _ r _ => r
  | .failure _ _ _ => ""

/-- Mirrors `r["metadata"]` with a zero record standing in for the key being
absent (the code only reads it from `status == "success"` dicts). -/
def metaD : RefResult → PhaseMeta
  | .success _ _ _ _ m => m
  | .failure _ _ _ => ⟨"", "", 0, 0, 0⟩

end RefResult

/-- Mirrors `ConsensusTool._consult_model_with_feedback`: builds a success dict
from a provider response and converts every exception raised in the body
into a `status == "error"` dict; never lets an exception escape. -/
def consultWithFeedback (spec : RefTaskSpec) (call : ProviderCall) : RefResult :=
  match spec.cfg.model with
  | none => .failure spec.cfg.nameOrUnknown "refinement" "KeyError: model"
  | some name =>
    match call with
    | .returns p t i o e =>
      .success name "refinement" (spec.response.responseD) t ⟨p, name, i, o, e⟩
    | .raises m => .failure name "refinement" m

/-- Fate of one refinement task at the phase-2 `asyncio.wait` deadline. -/
inductive RefFate where
  | value (r : RefResult)
  | raised (e : PyExc)
  | pending
deriving Repr, DecidableEq

/-- The phase-2 gather in `execute`: completed tasks contribute their
result dicts in completion order; a task that raised is logged and
skipped (`# Continue without this refinement`); a pending task is
cancelled and contributes nothing. -/
def refinementGather (fates : List RefFate) : List RefResult :=
  fates.filterMap fun f =>
    match f with
    | .value r => some r
    | .raised _ => none
    | .pending => none

/-- Mirrors `refined_by_model = {r["model"]: r for r in refined_responses if
r.get("status") == "success"}` — a Python dict comprehension: later
entries overwrite earlier ones at the same key, first-insertion position
is kept. -/
def upsertRef (m : List (String × RefResult)) (k : String) (v : RefResult) :
    List (String × RefResult) :=
  if m.any (fun kv => kv.1 = k) then
    m.map (fun kv => if kv.1 = k then (k, v) else kv)
  else m ++ [(k, v)]

/-- Build the `refined_by_model` dict. -/
def buildRefinedMap (rs : List RefResult) : List (String × RefResult) :=
  rs.foldl
    (fun m r => if r.statusOf = "success" then upsertRef m r.modelOf r else m) []

/-- Mirrors `refined_by_model[model_name]` / `model_name in refined_by_model`. -/
def lookupRef (m : List (String × RefResult)) (k : String) : Option RefResult :=
  (m.find? (fun kv => kv.1 = k)).map (·.2)

/-- The combined metadata dict built when a refined response replaces an
initial one: copy of the initial metadata, updated with per-phase and
total fields, with the single-phase `response_time` / `input_tokens` /
`output_tokens` keys popped. -/
structure CombinedMeta where
  provider : String
  model_name : String
  initial_response_time : ℚ
  refinement_response_time : ℚ
  total_response_time : ℚ
  input_tokens_initial : Nat
  output_tokens_initial : Nat
  input_tokens_refinement : Nat
  output_tokens_refinement : Nat
  total_input_tokens : Nat
  total_output_tokens : Nat
deriving Repr, DecidableEq

/-- The metadata dict kept when no successful refinement exists:
copy of the initial metadata with `response_time` renamed to
`initial_response_time` and `total_response_time` set to the same
value. -/
structure InitialOnlyMeta where
  provider : String
  model_name : String
  input_tokens : Nat
  output_tokens : Nat
  initial_response_time : ℚ
  total_response_time : ℚ
deriving Repr, DecidableEq

/-- Metadata of one entry of `final_responses` (the two dict shapes the
merge can produce). -/
inductive FinalMeta where
  | combined (c : CombinedMeta)
  | initialOnly (m : InitialOnlyMeta)
deriving Repr, DecidableEq

/-- Total input units recorded in the metadata of a final entry. -/
def FinalMeta.totalIn : FinalMeta → Nat
  | .combined c => c.total_input_tokens
  | .initialOnly m => m.input_tokens

/-- Total output units recorded in the metadata of a final entry. -/
def FinalMeta.totalOut : FinalMeta → Nat
  | .combined c => c.total_output_tokens
  | .initialOnly m => m.output_tokens

/-- Total elapsed time recorded in the metadata of a final entry. -/
def FinalMeta.totalTime : FinalMeta → ℚ
  | .combined c => c.total_response_time
  | .initialOnly m => m.total_response_time

/-- One entry of the `final_responses` list. -/
structure FinalEntry where
  model : String
  status : String
  response : String
  meta : FinalMeta
deriving Repr, DecidableEq

/-- The per-model merge step of the synthesis loop in `execute`: a
non-success initial result is skipped; a success with a successful
refined counterpart yields the refined text under combined metadata; a
success without one yields the initial text under renamed initial
metadata. -/
def mergeOne (map : List (String × RefResult)) (r : ConsResult) : Option FinalEntry :=
  match r with
  | .failure _ _ _ => none
  | .success model _ resp meta =>
    match lookupRef map model with
    | some ref =>
      some ⟨model, "success", ref.refinedD,
        .combined ⟨meta.provider, meta.model_name,
          meta.response_time, ref.metaD.response_time,
          meta.response_time + ref.metaD.response_time,
          meta.input_tokens, meta.output_tokens,
          ref.metaD.input_tokens, ref.metaD.output_tokens,
          meta.input_tokens + ref.metaD.input_tokens,
          meta.output_tokens + ref.metaD.output_tokens⟩⟩
    | none =>
      some ⟨model, "success", resp,
        .initialOnly ⟨meta.provider, meta.model_name,
          meta.input_tokens, meta.output_tokens,
          meta.response_time, meta.response_time⟩⟩

/-- The synthesis loop of `execute` (building `final_responses` from
`successful_initial` and `refined_responses`). -/
def synthesize (succ : List ConsResult) (refined : List RefResult) : List FinalEntry :=
  succ.filterMap (mergeOne (buildRefinedMap refined))

/-- One run of the synthesis step, returning the merge output together
with the (unmutated) inputs: the source copies the initial metadata dict
before updating it, so a run leaves its inputs intact for a second
run. -/
def synthesizeRun (succ : List ConsResult) (refined : List RefResult) :
    List FinalEntry × (List ConsResult × List RefResult) :=
  (synthesize succ refined, (succ, refined))

/-- Untyped Python/JSON value as stored in the `model_metadata` field
of a conversation turn.  Dict keys are strings (the metadata travels through
the JSON-backed thread store). -/
inductive PyVal where
  | none
  | str (s : String)
  | int (n : Int)
  | bool (b : Bool)
  | list (xs : List PyVal)
  | dict (kvs : List (String × PyVal))

namespace PyVal

/-- Python truthiness. -/
def truthy : PyVal → Bool
  | .none => false
  | .str s => !s.isEmpty
  | .int n => decide (n ≠ 0)
  | .bool b => b
  | .list xs => !xs.isEmpty
  | .dict kvs => !kvs.isEmpty

/-- Whether the value may be used as a Python dict key (lists and dicts
are unhashable; using one as a key raises `TypeError`). -/
def hashable : PyVal → Bool
  | .list _ => false
  | .dict _ => false
  | _ => true

/-- Mirrors `len(v)` for sized values; `none` when `len` would raise
`TypeError`. -/
def pyLen : PyVal → Option Nat
  | .str s => some s.length
  | .list xs => some xs.length
  | .dict kvs => some kvs.length
  | _ => Option.none

/-- Mirrors `str(v)` as interpolated into the history f-strings.  The rendering
of containers is abstracted; no theorem below depends on it. -/
def pyStr : PyVal → String
  | .none => "None"
  | .str s => s
  | .int n => toString n
  | .bool true => "True"
  | .bool false => "False"
  | .list _ => "<list>"
  | .dict _ => "<dict>"

end PyVal

/-- Python `==` on hashable dict keys (`True == 1`, `False == 0`;
containers never reach key position). -/
def pyKeyEq : PyVal → PyVal → Bool
  | .none, .none => true
  | .str a, .str b => a == b
  | .int a, .int b => a == b
  | .bool a, .bool b => a == b
  | .bool a, .int b => (if a then (1 : Int) else 0) == b
  | .int a, .bool b => a == (if b then (1 : Int) else 0)
  | _, _ => false

/-- Mirrors `d.get(k)` on a string-keyed dict. -/
def dictGet (kvs : List (String × PyVal)) (k : String) : Option PyVal :=
  (kvs.find? (fun kv => kv.1 = k)).map (·.2)

/-- The `consensus_responses` accumulator of
`_extract_previous_consensus`: a Python dict with arbitrary (hashable)
keys. -/
abbrev PyMap := List (PyVal × PyVal)

/-- Mirrors `d[k] = v` on a Python dict: overwrite in place if the key is
present, else append. -/
def upsertPv (m : PyMap) (k v : PyVal) : PyMap :=
  if m.any (fun kv => pyKeyEq kv.1 k) then
    m.map (fun kv => if pyKeyEq kv.1 k then (kv.1, v) else kv)
  else m ++ [(k, v)]

/-- Mirrors `previous_consensus[s]` / `s in previous_consensus` for a string
key. -/
def lookupPvStr (m : PyMap) (s : String) : Option PyVal :=
  (m.find? (fun kv => pyKeyEq kv.1 (.str s))).map (·.2)

/-- One conversation turn as read by the consensus tool (fields of
the `ConversationTurn` model of `utils.conversation_memory` that the extraction reads
touches). -/
structure Turn where
  role : String
  tool_name : Option String
  model_metadata : Option (List (String × PyVal))

/-- A thread context returned by `get_thread`. -/
structure ThreadCtx where
  turns : List Turn

/-- Body of the inner response loop of `_extract_previous_consensus` for
one `responses` element: a non-dict is skipped; a dict is recorded when
`model` and `response` are truthy and `status == "success"`.  The two
operations that can raise are explicit: `consensus_responses[model] = ...`
raises `TypeError` on an unhashable key, and the debug-log
`len(content)` raises `TypeError` on an unsized value — in both cases the
error carries the dict as mutated so far. -/
def procResponse (acc : PyMap) (resp : PyVal) : Except PyMap PyMap :=
  match resp with
  | .dict kvs =>
    let model := (dictGet kvs "model").getD .none
    let content := (dictGet kvs "response").getD .none
    let statusOk :=
      match dictGet kvs "status" with
      | some (.str s) => s = "success"
      | _ => false
    if model.truthy && content.truthy && statusOk then
      if model.hashable then
        let acc2 := upsertPv acc model content
        match content.pyLen with
        | some _ => .ok acc2
        | Option.none => .error acc2
      else .error acc
    else .ok acc
  | _ => .ok acc

/-- The inner response loop: stop at the first raising element, keeping
the partially updated dict. -/
def foldResponses (acc : PyMap) : List PyVal → Except PyMap PyMap
  | [] => .ok acc
  | x :: xs =>
    match procResponse acc x with
    | .ok a => foldResponses a xs
    | .error a => .error a

/-- The body of the per-turn `try:` block of
`_extract_previous_consensus`, with raising operations surfaced as
`Except.error` (carrying the dict as mutated so far).  Guards mirror the
source: consensus assistant turns only, truthy metadata containing
`consensus_data`, `consensus_data` a dict containing `responses`, and
`responses` a list (else the turn is skipped with a warning). -/
def procTurnRaw (acc : PyMap) (t : Turn) : Except PyMap PyMap :=
  if t.tool_name = some "consensus" ∧ t.role = "assistant" then
    match t.model_metadata with
    | some md =>
      if !md.isEmpty ∧ (dictGet md "consensus_data").isSome then
        match (dictGet md "consensus_data").getD .none with
        | .dict cdk =>
          if (dictGet cdk "responses").isSome then
            match (dictGet cdk "responses").getD (.list []) with
            | .list rs => foldResponses acc rs
            | _ => .ok acc
          else .ok acc
        | _ => .ok acc
      else .ok acc
    | Option.none => .ok acc
  else .ok acc

/-- The per-turn `except Exception: continue` handler: an error inside
processing of one turn keeps the dict as mutated so far and moves on
to the next turn. -/
def procTurnCaught (acc : PyMap) (t : Turn) : PyMap :=
  match procTurnRaw acc t with
  | .ok m => m
  | .error m => m

/-- Folding the caught per-turn step over a list of turns. -/
def foldTurns (acc : PyMap) (ts : List Turn) : PyMap :=
  ts.foldl procTurnCaught acc

/-- Mirrors `ConsensusTool._extract_previous_consensus`: a missing thread yields
the empty dict; otherwise every turn is processed under the per-turn
exception handler. -/
def extractPreviousConsensus (thread : Option ThreadCtx) : PyMap :=
  match thread with
  | Option.none => []
  | some th => foldTurns [] th.turns

/-- The attribution line the new-model branch of
`_build_model_specific_history` appends for one prior (model, response)
pair. -/
def attributionLine (kv : PyVal × PyVal) : String :=
  "\n--- " ++ kv.1.pyStr ++ "\x27s response ---\n" ++ kv.2.pyStr ++ "\n"

/-- Mirrors `ConsensusTool._build_model_specific_history` after the previous
consensus map has been extracted: empty map means no history; a
participating model sees only its own previous answer; a new model sees
all previous answers with attribution. -/
def buildModelSpecificHistory (currentModel : String) (prev : PyMap) : String :=
  if prev.isEmpty then ""
  else
    match lookupPvStr prev currentModel with
    | some v => "=== YOUR PREVIOUS RESPONSE ===\n\n" ++ v.pyStr ++ "\n"
    | Option.none =>
      prev.foldl (fun h kv => h ++ attributionLine kv)
        "=== PREVIOUS MODEL RESPONSES ===\n"

/-- The history injected into the initial-phase prompt of a model by
`_consult_model`: nothing without a truthy continuation id, else the
model-specific history built from the extracted previous consensus. -/
def historyForCall (contId : Option String) (getThread : String → Option ThreadCtx)
    (model : String) : String :=
  match contId with
  | Option.none => ""
  | some cid =>
    if cid.isEmpty then ""
    else buildModelSpecificHistory model (extractPreviousConsensus (getThread cid))

/-- The `continuation_offer` dict. -/
structure ContinuationOffer where
  continuation_id : String
  remaining_turns : Nat
deriving Repr, DecidableEq

/-- The continuation-and-persistence step at the end of `execute`:
given the number of successful final responses, the continuation id
of the request and the thread store, decide which continuation offer is
returned and whether an assistant turn is persisted.  Mirrors the
`if len(final_responses) > 0` gate, the `thread_context and
thread_context.turns` truthiness test and the
`turn_count < MAX_CONVERSATION_TURNS - 1` budget check; a fresh call
always creates a thread and persists. -/
def continuationDecision (maxTurns : Nat) (finalCount : Nat) (contId : Option String)
    (getThread : String → Option ThreadCtx) (newThreadId : String) :
    Option ContinuationOffer × Bool :=
  if 0 < finalCount then
    match contId with
    | some cid =>
      match getThread cid with
      | some tc =>
        if tc.turns.isEmpty then (Option.none, false)
        else if tc.turns.length < maxTurns - 1 then
          (some ⟨cid, maxTurns - tc.turns.length - 1⟩, true)
        else (Option.none, false)
      | Option.none => (Option.none, false)
    | Option.none => (some ⟨newThreadId, maxTurns - 1⟩, true)
  else (Option.none, false)

/-- Mirrors `ConsensusRequest.validate_consensus_requirements`: the only check
performed on the `models` list is non-emptiness. -/
def validateConsensusRequirements (models : List ModelCfg) :
    Except String (List ModelCfg) :=
  if models.isEmpty then
    .error "Consensus requires at least one model in \x27models\x27 field"
  else .ok models

/-- Concrete three-model roster for evaluating the initial-phase
pipeline: two models whose providers answer, one whose provider raises a
rate-limit error. -/
def c1Roster : List ModelCfg :=
  [⟨some "gemini-2.5-pro"⟩, ⟨some "o3-mini"⟩, ⟨some "gemini-2.5-flash"⟩]

/-- Completion set for `c1Roster`: all three consultations finish before
the deadline; the middle provider raised, which `_consult_model` turned
into a `status == "error"` dict. -/
def c1Done : List (Nat × DoneOutcome) :=
  [(0, .value (consultModel ⟨some "gemini-2.5-pro"⟩ "initial"
      (.returns "google" "Answer A" 10 20 2))),
   (1, .value (consultModel ⟨some "o3-mini"⟩ "initial"
      (.raises "API rate limit exceeded"))),
   (2, .value (consultModel ⟨some "gemini-2.5-flash"⟩ "initial"
      (.returns "google" "Answer C" 11 21 3)))]

/-! ## Theorems -/

/-- Accumulator lemma for the partition fold: the fold only appends. -/
theorem foldl_partStep_eq (l : List (ModelCfg × RespEntry)) :
    ∀ (a : List FailureEntry) (b : List ConsResult),
      l.foldl partStep (a, b) =
        (a ++ (l.foldl partStep ([], [])).1, b ++ (l.foldl partStep ([], [])).2) := by
  induction l with
  | nil => intro a b; simp
  | cons x t ih =>
    intro a b
    obtain ⟨m, e⟩ := x
    cases e with
    | exc e =>
      simp only [List.foldl_cons, partStep, List.nil_append]
      rw [ih, ih [⟨m.nameOrUnknown, e.strExc, "initial"⟩] []]
      simp
    | res r =>
      simp only [List.foldl_cons, partStep, List.nil_append]
      rw [ih, ih [] [r]]
      simp

/-- Each zipped entry contributes exactly one element to the partition. -/
theorem foldl_partStep_length (l : List (ModelCfg × RespEntry)) :
    (l.foldl partStep ([], [])).1.length + (l.foldl partStep ([], [])).2.length
      = l.length := by
  induction l with
  | nil => rfl
  | cons x t ih =>
    obtain ⟨m, e⟩ := x
    cases e with
    | exc e =>
      simp only [List.foldl_cons, partStep, List.nil_append]
      rw [foldl_partStep_eq]
      simpa using by omega
    | res r =>
      simp only [List.foldl_cons, partStep, List.nil_append]
      rw [foldl_partStep_eq]
      simpa using by omega

/-- An exception entry always lands in the failures side of the
partition, recorded for its own roster entry. -/
theorem exc_mem_failures (l : List (ModelCfg × RespEntry)) (m : ModelCfg) (e : PyExc)
    (hm : (m, RespEntry.exc e) ∈ l) :
    (⟨m.nameOrUnknown, e.strExc, "initial"⟩ : FailureEntry)
      ∈ (l.foldl partStep ([], [])).1 := by
  induction l with
  | nil => cases hm
  | cons x t ih =>
    rcases List.mem_cons.mp hm with hx | hx
    · subst hx
      simp only [List.foldl_cons, partStep, List.nil_append]
      rw [foldl_partStep_eq]
      simp
    · obtain ⟨m2, e2⟩ := x
      cases e2 with
      | exc e2 =>
        simp only [List.foldl_cons, partStep, List.nil_append]
        rw [foldl_partStep_eq]
        simpa using Or.inr (ih hx)
      | res r =>
        simp only [List.foldl_cons, partStep, List.nil_append]
        rw [foldl_partStep_eq]
        simpa using ih hx

/-- C1.  Evaluation of the initial-phase pipeline at a roster where two
providers answer and one raises "API rate limit exceeded": the
`failed_models` list of the report is empty and the erroring model is absent from the
synthesized responses, even though its result dict has status `"error"`
and exactly two models succeeded.  The `status == "error"` dict returned
by `_consult_model` is not an `Exception` instance, so the gather loop
routes it into `successful_initial` and it is silently dropped from both
`failures` and `responses` — contradicting the claim (and the
integration test of the repository) that a per-model provider error always yields a failure
entry with its original error text. -/
theorem c1_provider_error_vanishes :
    (runInitialPhase c1Roster c1Done "660.0").1 = []
    ∧ countSuccess (runInitialPhase c1Roster c1Done "660.0").2 = 2
    ∧ ((runInitialPhase c1Roster c1Done "660.0").2.map ConsResult.statusOf)
        = ["success", "error", "success"]
    ∧ ((synthesize (runInitialPhase c1Roster c1Done "660.0").2
          (refinementGather [])).map FinalEntry.model)
        = ["gemini-2.5-pro", "gemini-2.5-flash"] := by
  refine ⟨rfl, rfl, rfl, rfl⟩

/-- C3.  Every task is accounted for exactly once by the initial phase
(failures plus retained results add up to the roster size, so nothing is
dropped or retried), and every task still pending at the phase deadline
is recorded as a failure entry for its own model whose error text is the
fabricated phase-timeout message. -/
theorem c3_timeout_failures :
    ∀ (models : List ModelCfg) (done : List (Nat × DoneOutcome)) (pt : String),
      (runInitialPhase models done pt).1.length
          + (runInitialPhase models done pt).2.length = models.length
      ∧ ∀ i (h : i < models.length), findDone done i = Option.none →
          (⟨(models.get ⟨i, h⟩).nameOrUnknown,
            timeoutMessage pt (models.get ⟨i, h⟩).nameOrUnknown,
            "initial"⟩ : FailureEntry) ∈ (runInitialPhase models done pt).1 := by
  intro models done pt
  have hor : (orderedResponses models done pt).length = models.length := by
    simp [orderedResponses]
  constructor
  · have := foldl_partStep_length (models.zip (orderedResponses models done pt))
    simpa [runInitialPhase, partitionResponses, List.length_zip, hor] using this
  · intro i h hfd
    have hz : (models.zip (orderedResponses models done pt))[i]?
        = some (models.get ⟨i, h⟩,
            RespEntry.exc (.timeoutErr (timeoutMessage pt
              (models.get ⟨i, h⟩).nameOrUnknown))) := by
      rw [List.getElem?_zip_eq_some]
      constructor
      · simp [List.getElem?_eq_getElem h]
      · simp only [orderedResponses, List.getElem?_map, List.getElem?_range, h,
          if_pos, hfd]
        simp [hfd, List.getElem?_eq_getElem h]
    have hmem := List.getElem?_mem hz
    have := exc_mem_failures _ _ _ hmem
    simpa [runInitialPhase, partitionResponses] using this

/-- C3 witness: a one-model roster whose task never completes yields one
failure entry carrying the timeout message, and full accounting. -/
theorem c3_timeout_failures_witness :
    (runInitialPhase [⟨some "a"⟩] [] "0.5").1.length
        + (runInitialPhase [⟨some "a"⟩] [] "0.5").2.length = 1
    ∧ (⟨"a", timeoutMessage "0.5" "a", "initial"⟩ : FailureEntry)
        ∈ (runInitialPhase [⟨some "a"⟩] [] "0.5").1 :=
  ⟨(c3_timeout_failures [⟨some "a"⟩] [] "0.5").1,
   (c3_timeout_failures [⟨some "a"⟩] [] "0.5").2 0 (by decide) rfl⟩

/-- C8 counterexample: a request whose `models` list holds two identical
specs passes `validate_consensus_requirements` — no validation error is
raised, refuting the claim that duplicates are rejected. -/
theorem c8_duplicates_accepted :
    validateConsensusRequirements [⟨some "o3"⟩, ⟨some "o3"⟩]
      = Except.ok [⟨some "o3"⟩, ⟨some "o3"⟩] := rfl

/-- C8 amended: request validation rejects only an empty `models` list;
any non-empty list — duplicates included — is accepted unchanged. -/
theorem c8_empty_only_validation :
    ∀ (models : List ModelCfg),
      (models = [] → validateConsensusRequirements models
          = Except.error "Consensus requires at least one model in \x27models\x27 field")
      ∧ (models ≠ [] → validateConsensusRequirements models = Except.ok models) := by
  intro models
  constructor
  · rintro rfl; rfl
  · intro h
    cases models with
    | nil => exact absurd rfl h
    | cons x t => rfl

/-- C8 witness: the amended statement at an empty and at a singleton
roster. -/
theorem c8_empty_only_validation_witness :
    validateConsensusRequirements []
        = Except.error "Consensus requires at least one model in \x27models\x27 field"
    ∧ validateConsensusRequirements [⟨some "flash"⟩] = Except.ok [⟨some "flash"⟩] :=
  ⟨(c8_empty_only_validation []).1 rfl,
   (c8_empty_only_validation [⟨some "flash"⟩]).2 (by decide)⟩

/-- C9.  Synthesis is deterministic and idempotent: a second run of the
merge on the (unmutated) inputs returned by the first run yields the
identical responses list.  The embedding is a pure function of the
initial and refined results — the source copies each metadata dict before
updating it and iterates insertion-ordered dicts, so no run mutates its
inputs or observes nondeterministic state. -/
theorem c9_synthesis_deterministic :
    ∀ (succ : List ConsResult) (refined : List RefResult),
      (synthesizeRun succ refined).1 =
        (synthesizeRun (synthesizeRun succ refined).2.1
          (synthesizeRun succ refined).2.2).1 :=
  fun _ _ => rfl

/-- C10 counterexample: a call with one successful response and a
continuation id whose thread no longer exists produces no continuation
offer and persists nothing — refuting the claimed "if and only if at
least one model response has status success". -/
theorem c10_success_without_offer :
    continuationDecision 20 1 (some "t0") (fun _ => Option.none) "new-thread"
      = (Option.none, false) := rfl

/-- C10 amended: a continuation offer is present exactly when at least
one response succeeded and, for continuation calls, the referenced
thread exists, is non-empty, and has turn budget remaining (for fresh
calls, one success suffices); and an assistant turn is persisted exactly
when an offer is made. -/
theorem c10_offer_iff :
    ∀ (maxTurns finalCount : Nat) (contId : Option String)
      (getThread : String → Option ThreadCtx) (newThreadId : String),
      ((continuationDecision maxTurns finalCount contId getThread newThreadId).1.isSome
          ↔ 0 < finalCount ∧
            (contId = Option.none ∨
              ∃ cid tc, contId = some cid ∧ getThread cid = some tc ∧
                tc.turns ≠ [] ∧ tc.turns.length < maxTurns - 1))
      ∧ (continuationDecision maxTurns finalCount contId getThread newThreadId).2
          = (continuationDecision maxTurns finalCount contId getThread newThreadId).1.isSome := by
  intro mt fc cid gt nid
  unfold continuationDecision
  by_cases hfc : 0 < fc
  · simp only [if_pos hfc]
    cases cid with
    | none => simp [hfc]
    | some c =>
      cases hgt : gt c with
      | none => simp [hfc, hgt]
      | some tc =>
        by_cases he : tc.turns.isEmpty
        · have he2 : tc.turns = [] := by simpa using he
          simp [hfc, hgt, he, he2]
        · have he2 : tc.turns ≠ [] := by simpa using he
          by_cases hl : tc.turns.length < mt - 1
          · simp [hfc, hgt, he, he2, hl]
          · simp [hfc, hgt, he, he2, hl]
  · simp [if_neg hfc, hfc]

/-- The `find?` function returns the head of the filtered list. -/
theorem find?_eq_head_of_filter {α : Type} (p : α → Bool) :
    ∀ (l : List α), l.find? p = (l.filter p).head? := by
  intro l
  induction l with
  | nil => rfl
  | cons x t ih =>
    by_cases h : p x
    · rw [List.find?_cons_of_pos _ h, List.filter_cons, if_pos h]
      rfl
    · rw [List.find?_cons_of_neg _ h, List.filter_cons, if_neg h, ih]

/-- With pairwise-distinct task indices, at most one completion record
matches a given index. -/
theorem filter_key_length_le_one (l : List (Nat × DoneOutcome)) (i : Nat)
    (h : (l.map Prod.fst).Nodup) :
    (l.filter (fun p => p.1 = i)).length ≤ 1 := by
  induction l with
  | nil => simp
  | cons x t ih =>
    simp only [List.map_cons, List.nodup_cons] at h
    obtain ⟨hx, ht⟩ := h
    by_cases hxi : x.1 = i
    · have htf : t.filter (fun p => p.1 = i) = [] := by
        rw [List.filter_eq_nil_iff]
        intro a ha
        simp only [decide_eq_true_eq]
        intro hai
        have hmem : a.1 ∈ List.map Prod.fst t := List.mem_map_of_mem Prod.fst ha
        rw [hai, ← hxi] at hmem
        exact hx hmem
      simp [List.filter_cons, hxi, htf]
    · simp only [List.filter_cons, decide_eq_true_eq, hxi, if_false]
      exact ih ht

/-- A permutation of a list with at most one element is the list itself. -/
theorem perm_eq_of_length_le_one {α : Type} {l1 l2 : List α}
    (h : l1.Perm l2) (hl : l1.length ≤ 1) : l1 = l2 := by
  match l1, hl with
  | [], _ =>
    rw [List.nil_perm] at h
    rw [h]
  | [a], _ => exact List.singleton_perm.mp h
  | a :: b :: t, hl => simp at hl

/-- Membership lookup in the completion set is invariant under the order
in which tasks completed. -/
theorem findDone_perm (done done2 : List (Nat × DoneOutcome))
    (hperm : done.Perm done2) (hnd : (done.map Prod.fst).Nodup) (i : Nat) :
    findDone done i = findDone done2 i := by
  unfold findDone
  have hf : done.find? (fun p => p.1 = i) = done2.find? (fun p => p.1 = i) := by
    rw [find?_eq_head_of_filter, find?_eq_head_of_filter,
      perm_eq_of_length_le_one (hperm.filter _) (filter_key_length_le_one _ _ hnd)]
  rw [hf]

/-- C2 counterexample: a refinement-phase run over two tasks in which one
task is still pending at the deadline yields a result list of length 1,
not 2 — the pending task is cancelled and dropped from
`refined_responses`, so for the refinement phase the output length does
not equal the input length. -/
theorem c2_refinement_drops_pending :
    (refinementGather
        [RefFate.value (.success "m1" "refinement" (some "i1") "r1" ⟨"p", "m1", 1, 2, 1⟩),
         RefFate.pending]).length
      ≠ ([RefFate.value (.success "m1" "refinement" (some "i1") "r1" ⟨"p", "m1", 1, 2, 1⟩),
          RefFate.pending] : List RefFate).length := by
  decide

/-- C2 amended: for the initial phase the ordered result sequence has the
same length as the roster; the entry at index `i` is determined by model
the own completion record of model `i` (its value, its exception, or a fabricated
timeout naming model `i`); and the sequence is invariant under
permutations of the completion order.  The refinement phase instead
collects only the results of completed tasks in completion order (its list can
be shorter, see the counterexample), with per-model alignment restored at
synthesis through the `refined_by_model` lookup. -/
theorem c2_initial_phase_order :
    ∀ (models : List ModelCfg) (done done2 : List (Nat × DoneOutcome)) (pt : String),
      (orderedResponses models done pt).length = models.length
      ∧ (∀ i, i < models.length →
          (orderedResponses models done pt)[i]? = some
            (match findDone done i with
             | some (.value r) => RespEntry.res r
             | some (.raised e) => RespEntry.exc e
             | Option.none => RespEntry.exc (.timeoutErr (timeoutMessage pt
                 ((models[i]?.getD ⟨Option.none⟩).nameOrUnknown)))))
      ∧ (done.Perm done2 → (done.map Prod.fst).Nodup →
          orderedResponses models done pt = orderedResponses models done2 pt) := by
  intro models done done2 pt
  refine ⟨by simp [orderedResponses], ?_, ?_⟩
  · intro i h
    simp [orderedResponses, List.getElem?_range, h]
  · intro hperm hnd
    unfold orderedResponses
    apply List.map_congr_left
    intro i _
    rw [findDone_perm done done2 hperm hnd i]

/-- C2 witness: a two-model roster whose tasks completed in reverse
order still yields the length-2, index-aligned sequence, identical to the
forward completion order. -/
theorem c2_initial_phase_order_witness :
    (orderedResponses [⟨some "a"⟩, ⟨some "b"⟩]
        [(1, .value (.success "b" "initial" "rb" ⟨"p", "b", 1, 1, 1⟩)),
         (0, .value (.success "a" "initial" "ra" ⟨"p", "a", 1, 1, 1⟩))] "10").length = 2
    ∧ (orderedResponses [⟨some "a"⟩, ⟨some "b"⟩]
        [(1, .value (.success "b" "initial" "rb" ⟨"p", "b", 1, 1, 1⟩)),
         (0, .value (.success "a" "initial" "ra" ⟨"p", "a", 1, 1, 1⟩))] "10")[0]?
        = some (RespEntry.res (.success "a" "initial" "ra" ⟨"p", "a", 1, 1, 1⟩))
    ∧ orderedResponses [⟨some "a"⟩, ⟨some "b"⟩]
        [(1, .value (.success "b" "initial" "rb" ⟨"p", "b", 1, 1, 1⟩)),
         (0, .value (.success "a" "initial" "ra" ⟨"p", "a", 1, 1, 1⟩))] "10"
      = orderedResponses [⟨some "a"⟩, ⟨some "b"⟩]
        [(0, .value (.success "a" "initial" "ra" ⟨"p", "a", 1, 1, 1⟩)),
         (1, .value (.success "b" "initial" "rb" ⟨"p", "b", 1, 1, 1⟩))] "10" :=
  ⟨(c2_initial_phase_order [⟨some "a"⟩, ⟨some "b"⟩]
      [(1, .value (.success "b" "initial" "rb" ⟨"p", "b", 1, 1, 1⟩)),
       (0, .value (.success "a" "initial" "ra" ⟨"p", "a", 1, 1, 1⟩))]
      [(0, .value (.success "a" "initial" "ra" ⟨"p", "a", 1, 1, 1⟩)),
       (1, .value (.success "b" "initial" "rb" ⟨"p", "b", 1, 1, 1⟩))] "10").1,
   (c2_initial_phase_order [⟨some "a"⟩, ⟨some "b"⟩]
      [(1, .value (.success "b" "initial" "rb" ⟨"p", "b", 1, 1, 1⟩)),
       (0, .value (.success "a" "initial" "ra" ⟨"p", "a", 1, 1, 1⟩))]
      [(0, .value (.success "a" "initial" "ra" ⟨"p", "a", 1, 1, 1⟩)),
       (1, .value (.success "b" "initial" "rb" ⟨"p", "b", 1, 1, 1⟩))] "10").2.1 0 (by decide),
   (c2_initial_phase_order [⟨some "a"⟩, ⟨some "b"⟩]
      [(1, .value (.success "b" "initial" "rb" ⟨"p", "b", 1, 1, 1⟩)),
       (0, .value (.success "a" "initial" "ra" ⟨"p", "a", 1, 1, 1⟩))]
      [(0, .value (.success "a" "initial" "ra" ⟨"p", "a", 1, 1, 1⟩)),
       (1, .value (.success "b" "initial" "rb" ⟨"p", "b", 1, 1, 1⟩))] "10").2.2
      (by decide) (by decide)⟩

/-- A list holding two distinct elements has length at least two. -/
theorem two_mem_le_length {α : Type} {x y : α} (hxy : x ≠ y) :
    ∀ {l : List α}, x ∈ l → y ∈ l → 2 ≤ l.length := by
  intro l
  induction l with
  | nil => intro hx; cases hx
  | cons a t ih =>
    intro hx hy
    rcases List.mem_cons.mp hx with rfl | hx2
    · rcases List.mem_cons.mp hy with h2 | hy2
      · exact absurd h2.symm hxy
      · have := List.length_pos_of_mem hy2
        simp only [List.length_cons]
        omega
    · rcases List.mem_cons.mp hy with rfl | hy2
      · have := List.length_pos_of_mem hx2
        simp only [List.length_cons]
        omega
      · have := ih hx2 hy2
        simp only [List.length_cons]
        omega

/-- The count `countSuccess` equals the number of successful entries of the
enumerated list. -/
theorem countSuccess_enum (succ : List ConsResult) :
    countSuccess succ
      = (succ.enum.filter (fun p => p.2.statusOf = "success")).length := by
  unfold countSuccess
  conv_lhs => rw [← List.enum_map_snd succ]
  rw [List.filter_map, List.length_map]
  rfl

/-- With fewer than two initial successes, a successful entry has no
successful peers. -/
theorem othersOf_eq_nil_of_lt_two (succ : List ConsResult) (i : Nat) (r : ConsResult)
    (hmem : (i, r) ∈ succ.enum) (hs : r.statusOf = "success")
    (hcount : countSuccess succ < 2) :
    othersOf succ i = [] := by
  by_contra hne
  obtain ⟨o, ho⟩ := List.exists_mem_of_ne_nil _ hne
  unfold othersOf at ho
  obtain ⟨q, hq, rfl⟩ := List.mem_map.mp ho
  obtain ⟨hqin, hqp⟩ := List.mem_filter.mp hq
  simp only [ne_eq, decide_not, Bool.and_eq_true, Bool.not_eq_eq_eq_not,
    Bool.not_true, decide_eq_false_iff_not, decide_eq_true_eq] at hqp
  obtain ⟨hqi, hqs⟩ := hqp
  have hi : (i, r) ∈ succ.enum.filter (fun p => p.2.statusOf = "success") :=
    List.mem_filter.mpr ⟨hmem, by simp [hs]⟩
  have hqP : q ∈ succ.enum.filter (fun p => p.2.statusOf = "success") :=
    List.mem_filter.mpr ⟨hqin, by simp [hqs]⟩
  have hne2 : (i, r) ≠ q := by
    intro he
    exact hqi (by rw [← he])
  have h2 := two_mem_le_length hne2 hi hqP
  rw [← countSuccess_enum] at h2
  omega

/-- C4.  Every refinement task is created only for a model whose initial
result succeeded and only with a non-empty, all-successful peer list;
and with fewer than two initial successes no refinement task is created
at all, so every synthesized response carries its initial text. -/
theorem c4_refinement_eligibility :
    ∀ (enable : Bool) (models : List ModelCfg) (succ : List ConsResult),
      (∀ s ∈ refinementTaskSpecs enable models succ,
          s.response.statusOf = "success" ∧ s.others ≠ []
            ∧ ∀ o ∈ s.others, o.statusOf = "success")
      ∧ (countSuccess succ < 2 →
          refinementTaskSpecs enable models succ = []
          ∧ ∀ e ∈ synthesize succ (refinementGather []),
              ∃ r ∈ succ, r.statusOf = "success" ∧ e.response = r.responseD
                ∧ e.status = "success") := by
  intro enable models succ
  constructor
  · intro s hs
    unfold refinementTaskSpecs at hs
    by_cases hc : enable = true ∧ succ.length > 1
    · rw [if_pos hc] at hs
      obtain ⟨p, hp, hps⟩ := List.mem_filterMap.mp hs
      by_cases hst : p.2.statusOf = "success"
      · rw [if_pos hst] at hps
        cases hf : findModelCfg models p.2.modelOf with
        | none =>
          simp only [hf] at hps
          cases hps
        | some mc =>
          simp only [hf] at hps
          by_cases ho : othersOf succ p.1 ≠ []
          · rw [if_pos ho] at hps
            have hseq := Option.some.inj hps
            rw [← hseq]
            refine ⟨hst, ho, ?_⟩
            intro o hoo
            unfold othersOf at hoo
            obtain ⟨q, hq, rfl⟩ := List.mem_map.mp hoo
            obtain ⟨_, hqp⟩ := List.mem_filter.mp hq
            simp only [ne_eq, decide_not, Bool.and_eq_true, Bool.not_eq_eq_eq_not,
              Bool.not_true, decide_eq_false_iff_not, decide_eq_true_eq] at hqp
            exact hqp.2
          · rw [if_neg ho] at hps
            cases hps
      · rw [if_neg hst] at hps
        cases hps
    · rw [if_neg hc] at hs
      cases hs
  · intro hcount
    constructor
    · unfold refinementTaskSpecs
      by_cases hc : enable = true ∧ succ.length > 1
      · rw [if_pos hc]
        rw [List.filterMap_eq_nil_iff]
        intro p hp
        by_cases hst : p.2.statusOf = "success"
        · rw [if_pos hst]
          have hothers := othersOf_eq_nil_of_lt_two succ p.1 p.2 (by
            rw [Prod.mk.eta]
            exact hp) hst hcount
          cases hf : findModelCfg models p.2.modelOf with
          | none => simp [hf]
          | some mc => simp [hf, hothers]
        · rw [if_neg hst]
      · rw [if_neg hc]
    · intro e he
      unfold synthesize at he
      have hmap : buildRefinedMap (refinementGather []) = [] := rfl
      rw [hmap] at he
      obtain ⟨r, hr, hre⟩ := List.mem_filterMap.mp he
      cases r with
      | failure m ph er => simp [mergeOne] at hre
      | success m ph resp meta =>
        have hlk : lookupRef [] m = Option.none := rfl
        simp only [mergeOne, hlk] at hre
        have he2 := Option.some.inj hre
        rw [← he2]
        exact ⟨_, hr, rfl, rfl, rfl⟩

/-- C4 witness: with two initial successes every created task is
success-only with successful peers; with one success and one error no
task is created and the lone response keeps its initial text. -/
theorem c4_refinement_eligibility_witness :
    (∀ s ∈ refinementTaskSpecs true [⟨some "a"⟩, ⟨some "b"⟩]
        [.success "a" "initial" "ta" ⟨"p", "a", 1, 1, 1⟩,
         .success "b" "initial" "tb" ⟨"p", "b", 1, 1, 1⟩],
        s.response.statusOf = "success" ∧ s.others ≠ []
          ∧ ∀ o ∈ s.others, o.statusOf = "success")
    ∧ (refinementTaskSpecs true [⟨some "a"⟩, ⟨some "b"⟩]
          [.success "a" "initial" "ta" ⟨"p", "a", 1, 1, 1⟩,
           .failure "b" "initial" "boom"] = []
        ∧ ∀ e ∈ synthesize
            [.success "a" "initial" "ta" ⟨"p", "a", 1, 1, 1⟩,
             .failure "b" "initial" "boom"] (refinementGather []),
            ∃ r ∈ [ConsResult.success "a" "initial" "ta" ⟨"p", "a", 1, 1, 1⟩,
                   ConsResult.failure "b" "initial" "boom"],
              r.statusOf = "success" ∧ e.response = r.responseD
                ∧ e.status = "success") :=
  ⟨(c4_refinement_eligibility true [⟨some "a"⟩, ⟨some "b"⟩]
      [.success "a" "initial" "ta" ⟨"p", "a", 1, 1, 1⟩,
       .success "b" "initial" "tb" ⟨"p", "b", 1, 1, 1⟩]).1,
   (c4_refinement_eligibility true [⟨some "a"⟩, ⟨some "b"⟩]
      [.success "a" "initial" "ta" ⟨"p", "a", 1, 1, 1⟩,
       .failure "b" "initial" "boom"]).2 (by decide)⟩

/-- Every binding of an upserted dict is the new value or an old
binding. -/
theorem mem_upsertRef (m : List (String × RefResult)) (k : String) (v : RefResult) :
    ∀ kv ∈ upsertRef m k v, kv.2 = v ∨ kv ∈ m := by
  intro kv hkv
  unfold upsertRef at hkv
  by_cases h : m.any (fun kv => kv.1 = k) = true
  · rw [if_pos h] at hkv
    obtain ⟨q, hq, hqe⟩ := List.mem_map.mp hkv
    by_cases hk : q.1 = k
    · rw [if_pos hk] at hqe
      left
      rw [← hqe]
    · rw [if_neg hk] at hqe
      right
      rw [← hqe]
      exact hq
  · rw [if_neg h] at hkv
    rcases List.mem_append.mp hkv with h1 | h2
    · right; exact h1
    · left
      rw [List.mem_singleton.mp h2]

/-- Every value stored in `refined_by_model` is a successful refined
result drawn from `refined_responses`. -/
theorem buildRefinedMap_values (rs : List RefResult) :
    ∀ kv ∈ buildRefinedMap rs, kv.2 ∈ rs ∧ kv.2.statusOf = "success" := by
  suffices h : ∀ (l : List RefResult) (acc : List (String × RefResult)),
      (∀ kv ∈ acc, kv.2 ∈ rs ∧ kv.2.statusOf = "success") →
      (∀ r ∈ l, r ∈ rs) →
      ∀ kv ∈ l.foldl
          (fun m r => if r.statusOf = "success" then upsertRef m r.modelOf r else m) acc,
        kv.2 ∈ rs ∧ kv.2.statusOf = "success" by
    intro kv hkv
    exact h rs [] (by simp) (fun r hr => hr) kv hkv
  intro l
  induction l with
  | nil =>
    intro acc hacc _ kv hkv
    exact hacc kv hkv
  | cons x t ih =>
    intro acc hacc hsub kv hkv
    simp only [List.foldl_cons] at hkv
    by_cases hx : x.statusOf = "success"
    · rw [if_pos hx] at hkv
      refine ih (upsertRef acc x.modelOf x) ?_
        (fun r hr => hsub r (List.mem_cons_of_mem _ hr)) kv hkv
      intro kv2 hkv2
      rcases mem_upsertRef acc x.modelOf x kv2 hkv2 with h2 | h2
      · rw [h2]
        exact ⟨hsub x (List.mem_cons_self _ _), hx⟩
      · exact hacc kv2 h2
    · rw [if_neg hx] at hkv
      exact ih acc hacc (fun r hr => hsub r (List.mem_cons_of_mem _ hr)) kv hkv

/-- A successful lookup in `refined_by_model` yields a successful member
of `refined_responses`. -/
theorem lookupRef_success (rs : List RefResult) (k : String) (ref : RefResult)
    (h : lookupRef (buildRefinedMap rs) k = some ref) :
    ref ∈ rs ∧ ref.statusOf = "success" := by
  unfold lookupRef at h
  cases hf : (buildRefinedMap rs).find? (fun kv => kv.1 = k) with
  | none => rw [hf] at h; cases h
  | some kv =>
    rw [hf] at h
    have hkv := List.mem_of_find?_eq_some hf
    have hval := buildRefinedMap_values rs kv hkv
    have h2 := Option.some.inj h
    rw [← h2]
    exact hval

/-- C5.  Every initially-successful model produces one synthesized
entry; with a successful refined counterpart (necessarily a successful
member of the refined results) the entry carries the refined text and
sums the tokens and elapsed time of both phases into its totals; without one
the entry carries the initial text and its totals come from the
initial phase alone. -/
theorem c5_synthesis_merge :
    ∀ (succ : List ConsResult) (refined : List RefResult)
      (model phase resp : String) (meta : PhaseMeta),
      ConsResult.success model phase resp meta ∈ succ →
      (∀ ref, lookupRef (buildRefinedMap refined) model = some ref →
          ref ∈ refined ∧ ref.statusOf = "success")
      ∧ ∃ e ∈ synthesize succ refined,
          e.model = model ∧ e.status = "success" ∧
          (match lookupRef (buildRefinedMap refined) model with
           | some ref =>
               e.response = ref.refinedD
               ∧ e.meta.totalIn = meta.input_tokens + ref.metaD.input_tokens
               ∧ e.meta.totalOut = meta.output_tokens + ref.metaD.output_tokens
               ∧ e.meta.totalTime = meta.response_time + ref.metaD.response_time
           | Option.none =>
               e.response = resp
               ∧ e.meta.totalIn = meta.input_tokens
               ∧ e.meta.totalOut = meta.output_tokens
               ∧ e.meta.totalTime = meta.response_time) := by
  intro succ refined model phase resp meta hmem
  constructor
  · intro ref h
    exact lookupRef_success refined model ref h
  · cases hlk : lookupRef (buildRefinedMap refined) model with
    | some ref =>
      refine ⟨⟨model, "success", ref.refinedD,
        .combined ⟨meta.provider, meta.model_name,
          meta.response_time, ref.metaD.response_time,
          meta.response_time + ref.metaD.response_time,
          meta.input_tokens, meta.output_tokens,
          ref.metaD.input_tokens, ref.metaD.output_tokens,
          meta.input_tokens + ref.metaD.input_tokens,
          meta.output_tokens + ref.metaD.output_tokens⟩⟩, ?_, rfl, rfl, ?_⟩
      · exact List.mem_filterMap.mpr ⟨_, hmem, by simp [mergeOne, hlk]⟩
      · exact ⟨rfl, rfl, rfl, rfl⟩
    | none =>
      refine ⟨⟨model, "success", resp,
        .initialOnly ⟨meta.provider, meta.model_name,
          meta.input_tokens, meta.output_tokens,
          meta.response_time, meta.response_time⟩⟩, ?_, rfl, rfl, ?_⟩
      · exact List.mem_filterMap.mpr ⟨_, hmem, by simp [mergeOne, hlk]⟩
      · exact ⟨rfl, rfl, rfl, rfl⟩

/-- C5 witness: a one-model run with a successful refinement — the
synthesized entry carries the refined text with summed totals. -/
theorem c5_synthesis_merge_witness :
    (∀ ref, lookupRef (buildRefinedMap
        [RefResult.success "m1" "refinement" (some "ti") "tr" ⟨"pr", "m1", 5, 7, 3⟩]) "m1"
          = some ref →
        ref ∈ [RefResult.success "m1" "refinement" (some "ti") "tr" ⟨"pr", "m1", 5, 7, 3⟩]
          ∧ ref.statusOf = "success")
    ∧ ∃ e ∈ synthesize
        [ConsResult.success "m1" "initial" "ti" ⟨"pr", "m1", 10, 20, 2⟩]
        [RefResult.success "m1" "refinement" (some "ti") "tr" ⟨"pr", "m1", 5, 7, 3⟩],
        e.model = "m1" ∧ e.status = "success" ∧
        (match lookupRef (buildRefinedMap
            [RefResult.success "m1" "refinement" (some "ti") "tr" ⟨"pr", "m1", 5, 7, 3⟩])
            "m1" with
         | some ref =>
             e.response = ref.refinedD
             ∧ e.meta.totalIn = 10 + ref.metaD.input_tokens
             ∧ e.meta.totalOut = 20 + ref.metaD.output_tokens
             ∧ e.meta.totalTime = 2 + ref.metaD.response_time
         | Option.none =>
             e.response = "ti"
             ∧ e.meta.totalIn = 10
             ∧ e.meta.totalOut = 20
             ∧ e.meta.totalTime = 2) :=
  c5_synthesis_merge
    [ConsResult.success "m1" "initial" "ti" ⟨"pr", "m1", 10, 20, 2⟩]
    [RefResult.success "m1" "refinement" (some "ti") "tr" ⟨"pr", "m1", 5, 7, 3⟩]
    "m1" "initial" "ti" ⟨"pr", "m1", 10, 20, 2⟩
    (List.mem_singleton.mpr rfl)

/-- Folding string append distributes over the starting accumulator. -/
theorem str_foldl_append (l : List String) :
    ∀ s : String, l.foldl (fun r x => r ++ x) s = s ++ l.foldl (fun r x => r ++ x) "" := by
  induction l with
  | nil =>
    intro s
    simp
  | cons x t ih =>
    intro s
    simp only [List.foldl_cons]
    rw [ih (s ++ x), ih ("" ++ x), String.empty_append, String.append_assoc]

/-- Joining a cons of strings. -/
theorem str_join_cons (x : String) (l : List String) :
    String.join (x :: l) = x ++ String.join l := by
  unfold String.join
  simp only [List.foldl_cons]
  rw [str_foldl_append l ("" ++ x), String.empty_append]

/-- A left fold appending rendered elements equals the start string
followed by the joined renderings. -/
theorem str_foldl_map_join {α : Type} (f : α → String) :
    ∀ (l : List α) (s : String),
      l.foldl (fun h x => h ++ f x) s = s ++ String.join (l.map f) := by
  intro l
  induction l with
  | nil =>
    intro s
    simp [String.join]
  | cons x t ih =>
    intro s
    simp only [List.foldl_cons, List.map_cons]
    rw [ih, str_join_cons, ← String.append_assoc]

/-- C6.  With no continuation handle the injected history is empty.  A
model whose identifier is a key of the prior per-model answer map
receives exactly the "your previous response" framing of its own stored
answer — the output is a function of that single binding, so no peer
answer enters it.  A model absent from the map receives the "previous
model responses" header followed by every stored answer, each rendered
with its attribution line. -/
theorem c6_history_disambiguation :
    ∀ (getThread : String → Option ThreadCtx) (model : String) (prev : PyMap) (v : PyVal),
      historyForCall Option.none getThread model = ""
      ∧ (lookupPvStr prev model = some v →
          buildModelSpecificHistory model prev
            = "=== YOUR PREVIOUS RESPONSE ===\n\n" ++ v.pyStr ++ "\n")
      ∧ (prev ≠ [] → lookupPvStr prev model = Option.none →
          buildModelSpecificHistory model prev
            = "=== PREVIOUS MODEL RESPONSES ===\n"
              ++ String.join (prev.map attributionLine)) := by
  intro gt model prev v
  refine ⟨rfl, ?_, ?_⟩
  · intro hlk
    have hne : prev.isEmpty = false := by
      cases prev with
      | nil =>
        unfold lookupPvStr at hlk
        cases hlk
      | cons x t => rfl
    simp [buildModelSpecificHistory, hne, hlk]
  · intro hne hlk
    have hne2 : prev.isEmpty = false := by
      cases prev with
      | nil => exact absurd rfl hne
      | cons x t => rfl
    simp only [buildModelSpecificHistory, hne2, Bool.false_eq_true, if_false, hlk]
    exact str_foldl_map_join attributionLine prev _

/-- C6 witness: a participating model sees only its own stored answer; a
new model sees all answers with attribution; no handle means no
history. -/
theorem c6_history_disambiguation_witness :
    historyForCall Option.none (fun _ => Option.none) "a" = ""
    ∧ buildModelSpecificHistory "a" [(.str "a", .str "hi"), (.str "b", .str "yo")]
        = "=== YOUR PREVIOUS RESPONSE ===\n\n" ++ (PyVal.str "hi").pyStr ++ "\n"
    ∧ buildModelSpecificHistory "zz" [(.str "a", .str "hi"), (.str "b", .str "yo")]
        = "=== PREVIOUS MODEL RESPONSES ===\n"
          ++ String.join ([((PyVal.str "a"), (PyVal.str "hi")),
              ((PyVal.str "b"), (PyVal.str "yo"))].map attributionLine) :=
  ⟨(c6_history_disambiguation (fun _ => Option.none) "a"
      [(.str "a", .str "hi"), (.str "b", .str "yo")] (.str "hi")).1,
   (c6_history_disambiguation (fun _ => Option.none) "a"
      [(.str "a", .str "hi"), (.str "b", .str "yo")] (.str "hi")).2.1 rfl,
   (c6_history_disambiguation (fun _ => Option.none) "zz"
      [(.str "a", .str "hi"), (.str "b", .str "yo")] (.str "hi")).2.2
      (List.cons_ne_nil _ _) rfl⟩

/-- C7.  A missing thread extracts to the empty map; the raw
per-turn processing — which can genuinely raise (e.g. an unhashable `model` key,
or the debug-log `len(content)` on an unsized value) — is converted by
the per-turn handler into a map either way; and a turn whose processing
raises mid-way keeps its partial updates while extraction continues with
the remaining turns.  Extraction therefore always returns a (possibly
empty) map and never propagates an exception. -/
theorem c7_extraction_total :
    (extractPreviousConsensus Option.none = [])
    ∧ (∀ (acc : PyMap) (t : Turn),
        (∃ m, procTurnRaw acc t = Except.ok m ∧ procTurnCaught acc t = m)
        ∨ (∃ m, procTurnRaw acc t = Except.error m ∧ procTurnCaught acc t = m))
    ∧ (∀ (pre post : List Turn) (t : Turn) (m : PyMap),
        procTurnRaw (foldTurns [] pre) t = Except.error m →
        extractPreviousConsensus (some ⟨pre ++ t :: post⟩) = foldTurns m post) := by
  refine ⟨rfl, ?_, ?_⟩
  · intro acc t
    cases h : procTurnRaw acc t with
    | ok m => exact Or.inl ⟨m, rfl, by simp [procTurnCaught, h]⟩
    | error m => exact Or.inr ⟨m, rfl, by simp [procTurnCaught, h]⟩
  · intro pre post t m h
    show foldTurns [] (pre ++ t :: post) = foldTurns m post
    have hc : procTurnCaught (foldTurns [] pre) t = m := by
      simp only [procTurnCaught, h]
    unfold foldTurns
    rw [List.foldl_append]
    simp only [List.foldl_cons]
    rw [show List.foldl procTurnCaught [] pre = foldTurns [] pre from rfl, hc]

/-- C7 witness: a turn whose stored response content is the integer 5 —
truthy, so it is recorded, but unsized, so the subsequent debug `len`
raises — still yields its partial map and fails nothing. -/
theorem c7_extraction_total_witness :
    extractPreviousConsensus (some ⟨[⟨"assistant", some "consensus",
        some [("consensus_data", PyVal.dict [("responses", PyVal.list
          [PyVal.dict [("model", PyVal.str "mA"), ("response", PyVal.int 5),
            ("status", PyVal.str "success")]])])]⟩]⟩)
      = [(PyVal.str "mA", PyVal.int 5)] :=
  (c7_extraction_total).2.2 [] [] ⟨"assistant", some "consensus",
      some [("consensus_data", PyVal.dict [("responses", PyVal.list
        [PyVal.dict [("model", PyVal.str "mA"), ("response", PyVal.int 5),
          ("status", PyVal.str "success")]])])]⟩
    [(PyVal.str "mA", PyVal.int 5)] rfl

end ZenConsensus
